import Mathlib

/-!
Verification development for the terbulator terminal emulator core.

The definitions below are a shallow embedding of the Rust sources:
`src/renderer/backend.rs` (Color), `src/terminal/grid.rs` (Cell, Grid),
`src/terminal/emulator.rs` (TerminalEmulator and its VT `Perform` actions),
`src/pane/layout.rs` (Layout tree), `src/pane/manager.rs` (focus_direction)
and `src/terminal/pty.rs` (PtyController::read).

Machine integers (`u8`, `u16`, `u32`, `usize`) are modelled as `Nat`;
`saturating_sub` is truncated `Nat` subtraction.  The `f32` split `ratio`
of the layout tree is modelled as an exact rational, with the
`(x as f32 * ratio) as u32` truncation modelled as the rational floor.
Rust's `HashSet<(usize, usize)>` is modelled as `Finset (Nat × Nat)`.
-/

namespace Terbulator

/-- `Color` from `src/renderer/backend.rs`: 8-bit RGBA channels. -/
structure Color where
  r : Nat
  g : Nat
  b : Nat
  a : Nat
deriving DecidableEq, Repr

/-- `Color::rgb` (alpha 255). -/
def Color.rgb (r g b : Nat) : Color := ⟨r, g, b, 255⟩

/-- `Color::WHITE`. -/
def Color.WHITE : Color := Color.rgb 255 255 255

/-- `Color::BLACK`. -/
def Color.BLACK : Color := Color.rgb 0 0 0

/-- `Color::from_ansi_256` from `src/renderer/backend.rs`; the `u8` index is
taken mod 256 since callers cast with `as u8`. -/
def Color.from_ansi_256 (index : Nat) : Color :=
  let i := index % 256
  if i = 0 then Color.rgb 0 0 0
  else if i = 1 then Color.rgb 205 0 0
  else if i = 2 then Color.rgb 0 205 0
  else if i = 3 then Color.rgb 205 205 0
  else if i = 4 then Color.rgb 0 0 238
  else if i = 5 then Color.rgb 205 0 205
  else if i = 6 then Color.rgb 0 205 205
  else if i = 7 then Color.rgb 229 229 229
  else if i = 8 then Color.rgb 127 127 127
  else if i = 9 then Color.rgb 255 0 0
  else if i = 10 then Color.rgb 0 255 0
  else if i = 11 then Color.rgb 255 255 0
  else if i = 12 then Color.rgb 92 92 255
  else if i = 13 then Color.rgb 255 0 255
  else if i = 14 then Color.rgb 0 255 255
  else if i = 15 then Color.rgb 255 255 255
  else if i ≤ 231 then
    let idx := i - 16
    Color.rgb ((idx / 36) * 51) (((idx % 36) / 6) * 51) ((idx % 6) * 51)
  else
    let gray := 8 + (i - 232) * 10
    Color.rgb gray gray gray

/-- `CellAttributes` from `src/terminal/grid.rs`; `Default` is all-false. -/
structure CellAttributes where
  bold : Bool := false
  italic : Bool := false
  underline : Bool := false
  inverse : Bool := false
deriving DecidableEq, Repr

/-- `Cell` from `src/terminal/grid.rs`. -/
structure Cell where
  ch : Char
  fg : Color
  bg : Color
  attrs : CellAttributes
deriving DecidableEq, Repr

/-- `Cell::default()`: space on black with default attributes. -/
def Cell.default : Cell :=
  { ch := ' ', fg := Color.WHITE, bg := Color.BLACK, attrs := {} }

/-- `Cell::new(ch)`. -/
def Cell.new (ch : Char) : Cell := { Cell.default with ch := ch }

/-- `Grid` from `src/terminal/grid.rs`.  `cells` is the row-major visible
buffer, `scrollback` a FIFO of evicted rows (front oldest). -/
structure Grid where
  cells : List Cell
  cols : Nat
  rows : Nat
  scrollback : List (List Cell)
  max_scrollback : Nat
  dirty_cells : Finset (Nat × Nat)
  full_redraw_needed : Bool

/-- `Grid::new`. -/
def Grid.new (cols rows max_scrollback : Nat) : Grid :=
  { cells := List.replicate (cols * rows) Cell.default
    cols := cols
    rows := rows
    scrollback := []
    max_scrollback := max_scrollback
    dirty_cells := ∅
    full_redraw_needed := true }

/-- `Grid::get`. -/
def Grid.get (g : Grid) (col row : Nat) : Option Cell :=
  if col < g.cols ∧ row < g.rows then g.cells.get? (row * g.cols + col) else none

/-- `Grid::set`: writes only when the new cell differs, marking it dirty. -/
def Grid.set (g : Grid) (col row : Nat) (cell : Cell) : Grid :=
  if col < g.cols ∧ row < g.rows then
    match g.cells.get? (row * g.cols + col) with
    | some c =>
      if c ≠ cell then
        { g with cells := g.cells.set (row * g.cols + col) cell
                 dirty_cells := insert (col, row) g.dirty_cells }
      else g
    | none => g
  else g

/-- `Grid::clear`: reset every cell, set `full_redraw_needed`, clear dirty. -/
def Grid.clear (g : Grid) : Grid :=
  { g with cells := g.cells.map (fun _ => Cell.default)
           full_redraw_needed := true
           dirty_cells := ∅ }

/-- `get_mut` followed by `Cell::reset` (used by the CSI J/K handlers):
resets one in-bounds cell without touching the dirty set. -/
def Grid.resetCell (g : Grid) (col row : Nat) : Grid :=
  if col < g.cols ∧ row < g.rows then
    { g with cells := g.cells.set (row * g.cols + col) Cell.default }
  else g

/-- `Grid::clear_row`: reset the row's cells and mark the whole row dirty. -/
def Grid.clear_row (g : Grid) (row : Nat) : Grid :=
  if row < g.rows then
    { g with
      cells := g.cells.take (row * g.cols)
               ++ ((g.cells.drop (row * g.cols)).take g.cols).map (fun _ => Cell.default)
               ++ g.cells.drop (row * g.cols + g.cols)
      dirty_cells := g.dirty_cells ∪ (Finset.range g.cols).image (fun c => (c, row)) }
  else g

/-- One `scrollback.push(line)` followed by the overflow check
`if scrollback.len() > max_scrollback { scrollback.remove(0) }`. -/
def sbPush (maxSb : Nat) (sb : List (List Cell)) (line : List Cell) : List (List Cell) :=
  let sb' := sb ++ [line]
  if maxSb < sb'.length then sb'.drop 1 else sb'

/-- `Grid::scroll_up(lines)`.  The `copy_within(shift.., 0)` plus bottom
clear on the row-major buffer is expressed with `take`/`drop`; on a grid
satisfying `cells.length = cols * rows` this is exactly the Rust result. -/
def Grid.scroll_up (g : Grid) (lines : Nat) : Grid :=
  if lines = 0 ∨ g.rows ≤ lines then g
  else
    let sb := (List.range lines).foldl
      (fun sb i => sbPush g.max_scrollback sb ((g.cells.drop (i * g.cols)).take g.cols))
      g.scrollback
    let shift := lines * g.cols
    let clearStart := (g.rows - lines) * g.cols
    { g with
      scrollback := sb
      cells := (g.cells.drop shift ++ g.cells.drop (g.cells.length - shift)).take clearStart
               ++ List.replicate (g.cells.length - clearStart) Cell.default
      full_redraw_needed := true
      dirty_cells := ∅ }

/-- `Grid::scroll_down(lines)` (no scrollback; bottom rows lost). -/
def Grid.scroll_down (g : Grid) (lines : Nat) : Grid :=
  if lines = 0 ∨ g.rows ≤ lines then g
  else
    let shift := lines * g.cols
    let keep := g.cols * (g.rows - lines)
    let afterCopy := g.cells.take shift ++ g.cells.take keep ++ g.cells.drop (shift + keep)
    { g with
      cells := List.replicate (min shift afterCopy.length) Cell.default ++ afterCopy.drop shift
      full_redraw_needed := true
      dirty_cells := ∅ }

/-- `Grid::resize`: `Vec::resize(cols*rows, default)` keeps a prefix and
pads with default cells. -/
def Grid.resize (g : Grid) (cols rows : Nat) : Grid :=
  { g with cols := cols
           rows := rows
           cells := g.cells.take (cols * rows)
                    ++ List.replicate (cols * rows - g.cells.length) Cell.default
           full_redraw_needed := true
           dirty_cells := ∅ }

/-- `Grid::clear_dirty`. -/
def Grid.clear_dirty (g : Grid) : Grid :=
  { g with dirty_cells := ∅, full_redraw_needed := false }

/-- The `row`-th visible row of the grid (`Grid::get_row` slice). -/
def Grid.rowAt (g : Grid) (row : Nat) : List Cell :=
  (g.cells.drop (row * g.cols)).take g.cols

/-- `TerminalImage` from `src/terminal/image/mod.rs`: anchor cell and size
in cells.  The decoded pixel payload (`image::DynamicImage`) is not
modelled; only the fields relevant to the image list are kept. -/
structure TerminalImage where
  row : Nat
  col : Nat
  width_cells : Nat
  height_cells : Nat
deriving DecidableEq, Repr

/-- The graphic-rendition state `current_fg` / `current_bg` /
`current_attrs` of `TerminalEmulator`, grouped. -/
structure Style where
  fg : Color
  bg : Color
  attrs : CellAttributes
deriving DecidableEq, Repr

/-- `TerminalEmulator` from `src/terminal/emulator.rs`.  The `vte::Parser`
field is not part of the state here: bytes are modelled at the level of
the `Perform` actions the parser dispatches (see `Op`); the Kitty/Sixel
parser fields are kept as their raw `{buffer, in_sequence}` state. -/
structure Emulator where
  grid : Grid
  cursor_col : Nat
  cursor_row : Nat
  cursor_visible : Bool
  style : Style
  saved_cursor : Option (Nat × Nat)
  kitty_in_sequence : Bool
  kitty_buffer : List Nat
  sixel_in_sequence : Bool
  sixel_buffer : List Nat
  images : List TerminalImage

/-- `TerminalEmulator::new`. -/
def Emulator.new (cols rows scrollback : Nat) : Emulator :=
  { grid := Grid.new cols rows scrollback
    cursor_col := 0
    cursor_row := 0
    cursor_visible := true
    style := { fg := Color.WHITE, bg := Color.BLACK, attrs := {} }
    saved_cursor := none
    kitty_in_sequence := false
    kitty_buffer := []
    sixel_in_sequence := false
    sixel_buffer := []
    images := [] }

/-- `TerminalEmulator::write_char`: deferred wrap, scroll at the bottom,
write the styled cell, advance the column. -/
def Emulator.write_char (e : Emulator) (ch : Char) : Emulator :=
  let e :=
    if e.grid.cols ≤ e.cursor_col then
      let e := { e with cursor_col := 0, cursor_row := e.cursor_row + 1 }
      if e.grid.rows ≤ e.cursor_row then
        { e with grid := e.grid.scroll_up 1, cursor_row := e.grid.rows - 1 }
      else e
    else e
  let cell : Cell := { ch := ch, fg := e.style.fg, bg := e.style.bg, attrs := e.style.attrs }
  { e with grid := e.grid.set e.cursor_col e.cursor_row cell
           cursor_col := e.cursor_col + 1 }

/-- `TerminalEmulator::carriage_return`. -/
def Emulator.carriage_return (e : Emulator) : Emulator :=
  { e with cursor_col := 0 }

/-- `TerminalEmulator::line_feed`: row+1, scroll on overflow; column kept. -/
def Emulator.line_feed (e : Emulator) : Emulator :=
  let e := { e with cursor_row := e.cursor_row + 1 }
  if e.grid.rows ≤ e.cursor_row then
    { e with grid := e.grid.scroll_up 1, cursor_row := e.grid.rows - 1 }
  else e

/-- `TerminalEmulator::backspace` (saturating). -/
def Emulator.backspace (e : Emulator) : Emulator :=
  if 0 < e.cursor_col then { e with cursor_col := e.cursor_col - 1 } else e

/-- `TerminalEmulator::tab`: next multiple of 8, clamped to `cols - 1`. -/
def Emulator.tab (e : Emulator) : Emulator :=
  let c := ((e.cursor_col / 8) + 1) * 8
  if e.grid.cols ≤ c then { e with cursor_col := e.grid.cols - 1 }
  else { e with cursor_col := c }

/-- The loop body of `TerminalEmulator::set_sgr`; `params` is the list of
first sub-parameters of the vte `Params` iterator (`param[0]`, a `u16`).
Codes 38/48 consume one further parameter, and a second when it is `5`. -/
def sgrLoop (s : Style) : List Nat → Style
  | [] => s
  | n :: rest =>
    if n = 0 then sgrLoop { fg := Color.WHITE, bg := Color.BLACK, attrs := {} } rest
    else if n = 1 then sgrLoop { s with attrs := { s.attrs with bold := true } } rest
    else if n = 3 then sgrLoop { s with attrs := { s.attrs with italic := true } } rest
    else if n = 4 then sgrLoop { s with attrs := { s.attrs with underline := true } } rest
    else if n = 7 then sgrLoop { s with attrs := { s.attrs with inverse := true } } rest
    else if n = 22 then sgrLoop { s with attrs := { s.attrs with bold := false } } rest
    else if n = 23 then sgrLoop { s with attrs := { s.attrs with italic := false } } rest
    else if n = 24 then sgrLoop { s with attrs := { s.attrs with underline := false } } rest
    else if n = 27 then sgrLoop { s with attrs := { s.attrs with inverse := false } } rest
    else if 30 ≤ n ∧ n ≤ 37 then sgrLoop { s with fg := Color.from_ansi_256 (n - 30) } rest
    else if 90 ≤ n ∧ n ≤ 97 then sgrLoop { s with fg := Color.from_ansi_256 (n - 90 + 8) } rest
    else if 40 ≤ n ∧ n ≤ 47 then sgrLoop { s with bg := Color.from_ansi_256 (n - 40) } rest
    else if 100 ≤ n ∧ n ≤ 107 then sgrLoop { s with bg := Color.from_ansi_256 (n - 100 + 8) } rest
    else if n = 38 then
      match rest with
      | [] => s
      | m :: rest2 =>
        if m = 5 then
          match rest2 with
          | [] => s
          | c :: rest3 => sgrLoop { s with fg := Color.from_ansi_256 (c % 256) } rest3
        else sgrLoop s rest2
    else if n = 48 then
      match rest with
      | [] => s
      | m :: rest2 =>
        if m = 5 then
          match rest2 with
          | [] => s
          | c :: rest3 => sgrLoop { s with bg := Color.from_ansi_256 (c % 256) } rest3
        else sgrLoop s rest2
    else if n = 39 then sgrLoop { s with fg := Color.WHITE } rest
    else if n = 49 then sgrLoop { s with bg := Color.BLACK } rest
    else sgrLoop s rest

/-- `TerminalEmulator::set_sgr`: empty parameter list resets everything. -/
def Style.set_sgr (s : Style) (params : List Nat) : Style :=
  if params = [] then { fg := Color.WHITE, bg := Color.BLACK, attrs := {} }
  else sgrLoop s params

/-- CSI `J` (erase in display) from `csi_dispatch`, for parameter `n`. -/
def Emulator.eraseInDisplayN (e : Emulator) (n : Nat) : Emulator :=
  if n = 0 then
    let g1 := (List.range' e.cursor_col (e.grid.cols - e.cursor_col)).foldl
      (fun g col => g.resetCell col e.cursor_row) e.grid
    let g2 := (List.range' (e.cursor_row + 1) (e.grid.rows - (e.cursor_row + 1))).foldl
      (fun g row => g.clear_row row) g1
    { e with grid := g2 }
  else if n = 1 then
    let g1 := (List.range e.cursor_row).foldl (fun g row => g.clear_row row) e.grid
    let g2 := (List.range (e.cursor_col + 1)).foldl
      (fun g col => g.resetCell col e.cursor_row) g1
    { e with grid := g2 }
  else if n = 2 ∨ n = 3 then { e with grid := e.grid.clear }
  else e

/-- CSI `J`: `n` defaults to 0 on an empty parameter list. -/
def Emulator.eraseInDisplay (e : Emulator) (params : List Nat) : Emulator :=
  e.eraseInDisplayN (if params = [] then 0 else params.getD 0 0)

/-- CSI `K` (erase in line) from `csi_dispatch`, for parameter `n`. -/
def Emulator.eraseInLineN (e : Emulator) (n : Nat) : Emulator :=
  if n = 0 then
    let g1 := (List.range' e.cursor_col (e.grid.cols - e.cursor_col)).foldl
      (fun g col => g.resetCell col e.cursor_row) e.grid
    { e with grid := g1 }
  else if n = 1 then
    let g1 := (List.range (e.cursor_col + 1)).foldl
      (fun g col => g.resetCell col e.cursor_row) e.grid
    { e with grid := g1 }
  else if n = 2 then { e with grid := e.grid.clear_row e.cursor_row }
  else e

/-- CSI `K`: `n` defaults to 0 on an empty parameter list. -/
def Emulator.eraseInLine (e : Emulator) (params : List Nat) : Emulator :=
  e.eraseInLineN (if params = [] then 0 else params.getD 0 0)

/-- `Perform::csi_dispatch` from `src/terminal/emulator.rs`.  `params` is
the list of first sub-parameters; the grid is assumed non-degenerate
(`cols, rows ≥ 1`) so that the `usize` expressions `rows - 1` / `cols - 1`
coincide with truncated `Nat` subtraction. -/
def Emulator.applyCsi (e : Emulator) (params : List Nat) (c : Char) : Emulator :=
  if c = 'H' ∨ c = 'f' then
    let row := if params = [] then 1 else max (params.getD 0 0) 1
    let col := if params.length < 2 then 1 else max (params.getD 1 0) 1
    { e with cursor_row := min (row - 1) (e.grid.rows - 1)
             cursor_col := min (col - 1) (e.grid.cols - 1) }
  else if c = 'A' then
    let n := if params = [] then 1 else max (params.getD 0 0) 1
    { e with cursor_row := e.cursor_row - n }
  else if c = 'B' then
    let n := if params = [] then 1 else max (params.getD 0 0) 1
    { e with cursor_row := min (e.cursor_row + n) (e.grid.rows - 1) }
  else if c = 'C' then
    let n := if params = [] then 1 else max (params.getD 0 0) 1
    { e with cursor_col := min (e.cursor_col + n) (e.grid.cols - 1) }
  else if c = 'D' then
    let n := if params = [] then 1 else max (params.getD 0 0) 1
    { e with cursor_col := e.cursor_col - n }
  else if c = 'J' then e.eraseInDisplay params
  else if c = 'K' then e.eraseInLine params
  else if c = 'm' then { e with style := e.style.set_sgr params }
  else if c = 's' then { e with saved_cursor := some (e.cursor_col, e.cursor_row) }
  else if c = 'u' then
    match e.saved_cursor with
    | some (c0, r0) => { e with cursor_col := c0, cursor_row := r0 }
    | none => e
  else e

/-- `Perform::execute`: C0 control dispatch. -/
def Emulator.applyExecute (e : Emulator) (b : Nat) : Emulator :=
  if b = 10 then e.line_feed
  else if b = 13 then e.carriage_return
  else if b = 8 then e.backspace
  else if b = 9 then e.tab
  else e

/-- `Perform::esc_dispatch`: `ESC c` (RIS) resets everything. -/
def Emulator.applyEsc (e : Emulator) (b : Nat) : Emulator :=
  if b = 99 then
    { e with grid := e.grid.clear
             cursor_col := 0
             cursor_row := 0
             cursor_visible := true
             style := { fg := Color.WHITE, bg := Color.BLACK, attrs := {} }
             saved_cursor := none }
  else e

/-- The `Perform` actions the vte parser dispatches to the emulator
(`print`, `execute`, `csi_dispatch`, `esc_dispatch`; `hook`/`put`/
`unhook`/`osc_dispatch` are no-ops in the source and omitted). -/
inductive Op where
  | print (c : Char)
  | execute (b : Nat)
  | csi (params : List Nat) (final : Char)
  | esc (b : Nat)

/-- Apply one dispatched action. -/
def Emulator.applyOp (e : Emulator) : Op → Emulator
  | .print c => e.write_char c
  | .execute b => e.applyExecute b
  | .csi ps c => e.applyCsi ps c
  | .esc b => e.applyEsc b

/-- Apply a sequence of dispatched actions. -/
def Emulator.applyOps (e : Emulator) (ops : List Op) : Emulator :=
  ops.foldl Emulator.applyOp e

/-- `TerminalEmulator::process_byte` for a byte the vte parser handles in
its ground state: printable ASCII `0x20`–`0x7E` dispatches `print`, a C0
byte dispatches `execute` (spec section 4.2).  Faithful for byte strings
that contain no escape-sequence bytes, such as the spec scenarios. -/
def Emulator.processPlainByte (e : Emulator) (b : Nat) : Emulator :=
  if 0x20 ≤ b ∧ b ≤ 0x7e then e.write_char (Char.ofNat b)
  else if b ≤ 0x1f then e.applyExecute b
  else e

/-- Feed a plain byte string byte by byte. -/
def Emulator.processPlainBytes (e : Emulator) (bs : List Nat) : Emulator :=
  bs.foldl Emulator.processPlainByte e

/-- `PaneId` from `src/pane/pane.rs` (`usize`). -/
abbrev PaneId := Nat

/-- `SplitDirection` from `src/pane/layout.rs`. -/
inductive SplitDirection where
  | Horizontal
  | Vertical
deriving DecidableEq, Repr

/-- `Rect` from `src/pane/layout.rs` (`u32` fields). -/
structure Rect where
  x : Nat
  y : Nat
  width : Nat
  height : Nat
deriving DecidableEq, Repr

/-- `LayoutNode` from `src/pane/layout.rs`.  The `f32` ratio is modelled
as an exact rational. -/
inductive LayoutNode where
  | Leaf (pane_id : PaneId)
  | Branch (direction : SplitDirection) (ratio : ℚ) (first second : LayoutNode)
deriving DecidableEq, Repr

/-- `Layout` from `src/pane/layout.rs`. -/
structure Layout where
  root : LayoutNode
  next_id : PaneId
deriving DecidableEq, Repr

/-- `Layout::new`: a single pane 0, `next_id = 1`. -/
def Layout.new : Layout := { root := .Leaf 0, next_id := 1 }

/-- `(x as f32 * ratio) as u32`: the ratio product truncated toward zero,
modelled as the rational floor (the ratio is nonnegative everywhere the
source uses it). -/
def ratioMul (n : Nat) (r : ℚ) : Nat := (⌊(n : ℚ) * r⌋).toNat

/-- `Layout::split_node`: replace the leaf `target_id` (first match in an
in-order search) by a branch keeping the old leaf first and the new leaf
second.  Returns the rebuilt node and the Rust `bool`. -/
def splitNode : LayoutNode → PaneId → SplitDirection → PaneId → ℚ → LayoutNode × Bool
  | .Leaf pid, target, d, newId, r =>
    if pid = target then (.Branch d r (.Leaf pid) (.Leaf newId), true)
    else (.Leaf pid, false)
  | .Branch d0 r0 f s, target, d, newId, r =>
    let res1 := splitNode f target d newId r
    if res1.2 then (.Branch d0 r0 res1.1 s, true)
    else
      let res2 := splitNode s target d newId r
      (.Branch d0 r0 f res2.1, res2.2)

/-- `Layout::split_pane_with_ratio`: allocates `new_id = next_id++` before
searching, then splits.  Returns the new layout and `Option<PaneId>`. -/
def Layout.split_pane_with_ratio (l : Layout) (pane_id : PaneId) (d : SplitDirection)
    (ratio : ℚ) : Layout × Option PaneId :=
  let newId := l.next_id
  let res := splitNode l.root pane_id d newId ratio
  if res.2 then ({ root := res.1, next_id := l.next_id + 1 }, some newId)
  else ({ root := res.1, next_id := l.next_id + 1 }, none)

/-- Whether a node is `Leaf(target)` (the `if let` checks in `remove_node`
and `remove_pane`). -/
def isLeafWithId : LayoutNode → PaneId → Bool
  | .Leaf p, target => p = target
  | _, _ => false

/-- `Layout::remove_node`: if a direct child is the target leaf, replace
the branch by the sibling; otherwise recurse (first subtree first). -/
def removeNode : LayoutNode → PaneId → LayoutNode × Bool
  | .Leaf p, _ => (.Leaf p, false)
  | .Branch d r f s, target =>
    if isLeafWithId f target then (s, true)
    else if isLeafWithId s target then (f, true)
    else
      let res1 := removeNode f target
      if res1.2 then (.Branch d r res1.1 s, true)
      else
        let res2 := removeNode s target
        (.Branch d r f res2.1, res2.2)

/-- `Layout::remove_pane`: refuses when the root is the target leaf. -/
def Layout.remove_pane (l : Layout) (pane_id : PaneId) : Layout × Bool :=
  if isLeafWithId l.root pane_id then (l, false)
  else
    let res := removeNode l.root pane_id
    ({ l with root := res.1 }, res.2)

/-- The split of a branch rect by `direction` and `ratio` from
`Layout::calculate_node_rects` (`second = total.saturating_sub(first)`). -/
def splitRects (d : SplitDirection) (ratio : ℚ) (rect : Rect) : Rect × Rect :=
  match d with
  | .Horizontal =>
    let firstHeight := ratioMul rect.height ratio
    let secondHeight := rect.height - firstHeight
    (⟨rect.x, rect.y, rect.width, firstHeight⟩,
     ⟨rect.x, rect.y + firstHeight, rect.width, secondHeight⟩)
  | .Vertical =>
    let firstWidth := ratioMul rect.width ratio
    let secondWidth := rect.width - firstWidth
    (⟨rect.x, rect.y, firstWidth, rect.height⟩,
     ⟨rect.x + firstWidth, rect.y, secondWidth, rect.height⟩)

/-- `Layout::calculate_node_rects`: in-order recursion. -/
def calcNodeRects : LayoutNode → Rect → List (PaneId × Rect)
  | .Leaf pid, rect => [(pid, rect)]
  | .Branch d r f s, rect =>
    let pair := splitRects d r rect
    calcNodeRects f pair.1 ++ calcNodeRects s pair.2

/-- `Layout::calculate_rects`. -/
def Layout.calculate_rects (l : Layout) (window_rect : Rect) : List (PaneId × Rect) :=
  calcNodeRects l.root window_rect

/-- `Layout::collect_pane_ids` (in-order). -/
def allIds : LayoutNode → List PaneId
  | .Leaf p => [p]
  | .Branch _ _ f s => allIds f ++ allIds s

/-- `Layout::all_pane_ids`. -/
def Layout.all_pane_ids (l : Layout) : List PaneId := allIds l.root

/-- `Direction` used by `PaneManager::focus_direction`. -/
inductive Direction where
  | Left
  | Right
  | Up
  | Down
deriving DecidableEq, Repr

/-- A pane rect's centre `(x + width/2, y + height/2)`. -/
def rectCenter (r : Rect) : Nat × Nat := (r.x + r.width / 2, r.y + r.height / 2)

/-- Strict direction test on centres from `focus_direction`. -/
def isInDirection (d : Direction) (cur pc : Nat × Nat) : Bool :=
  match d with
  | .Left => decide (pc.1 < cur.1)
  | .Right => decide (cur.1 < pc.1)
  | .Up => decide (pc.2 < cur.2)
  | .Down => decide (cur.2 < pc.2)

/-- `|a - b|` on `Nat`, as the source's `(a as i32 - b as i32).abs()`. -/
def natDist (a b : Nat) : Nat := ((a : ℤ) - (b : ℤ)).natAbs

/-- Manhattan distance between centres. -/
def manhattanDist (a b : Nat × Nat) : Nat := natDist a.1 b.1 + natDist a.2 b.2

/-- The loop body of `PaneManager::focus_direction`: skip the active pane
and panes not strictly in the direction; keep the best (smallest) distance
seen so far, updating only on a strictly smaller distance. -/
def focusStep (active : PaneId) (cur : Nat × Nat) (d : Direction)
    (best : Option PaneId × Nat) (pr : PaneId × Rect) : Option PaneId × Nat :=
  if pr.1 = active then best
  else
    let pc := rectCenter pr.2
    if isInDirection d cur pc then
      let dist := manhattanDist pc cur
      if dist < best.2 then (some pr.1, dist) else best
    else best

/-- `PaneManager::focus_direction` from `src/pane/manager.rs`, as the pure
selection function: which pane (if any) receives focus.  `best_distance`
starts at `u32::MAX = 4294967295`. -/
def focusDirection (l : Layout) (active : PaneId) (window_rect : Rect)
    (d : Direction) : Option PaneId :=
  let rects := l.calculate_rects window_rect
  match rects.find? (fun pr => pr.1 == active) with
  | none => none
  | some cur =>
    (rects.foldl (focusStep active (rectCenter cur.2) d) (none, 4294967295)).1

/-- The candidate list considered by `focus_direction`: panes other than
the active one whose centre is strictly in direction `d`, paired with
their Manhattan distance from the active centre, in traversal order. -/
def focusCandidates (active : PaneId) (cur : Nat × Nat) (d : Direction)
    (rects : List (PaneId × Rect)) : List (PaneId × Nat) :=
  (rects.filter (fun pr => !(pr.1 == active) && isInDirection d cur (rectCenter pr.2))).map
    (fun pr => (pr.1, manhattanDist (rectCenter pr.2) cur))

/-- Modelled from the spec: select the element with the smallest key; on
ties keep the earliest.  Used to state what the tie-break actually is. -/
def firstMinBy (f : α → Nat) : List α → Option α
  | [] => none
  | x :: xs =>
    match firstMinBy f xs with
    | none => some x
    | some y => if f x ≤ f y then some x else some y

/-- The receive channel state of `PtyController`: queued chunks (front is
the next `try_recv` result) and whether the sender side is gone.
`try_recv` yields a chunk whenever one is queued, `Disconnected` only on
an empty queue with the sender dropped, and `Empty` otherwise. -/
structure PtyChan where
  chunks : List (List Nat)
  disconnected : Bool
deriving DecidableEq, Repr

/-- Result of `PtyController::read`: `Err(WouldBlock)` or `Ok(n)`. -/
inductive PtyReadResult where
  | wouldBlock
  | ok (n : Nat)
deriving DecidableEq, Repr

/-- `PtyController::read(buf)` from `src/terminal/pty.rs`: try-receive one
chunk; copy `min(chunk.len, buf.len)` bytes into the buffer's prefix and
drop the rest of the chunk.  Returns the result, the buffer contents
after the call, and the channel state after the call. -/
def ptyRead (ch : PtyChan) (buf : List Nat) : PtyReadResult × List Nat × PtyChan :=
  match ch.chunks with
  | data :: rest =>
    let len := min data.length buf.length
    (.ok len, data.take len ++ buf.drop len, { ch with chunks := rest })
  | [] =>
    if ch.disconnected then (.ok 0, buf, ch) else (.wouldBlock, buf, ch)

/-- The grid operations of `src/terminal/grid.rs` as reified events. -/
inductive GridOp where
  | set (col row : Nat) (cell : Cell)
  | clearRow (row : Nat)
  | scrollUp (n : Nat)
  | scrollDown (n : Nat)
  | clear
  | resize (cols rows : Nat)
  | clearDirty

/-- Apply one grid operation. -/
def Grid.applyOp (g : Grid) : GridOp → Grid
  | .set c r cell => g.set c r cell
  | .clearRow r => g.clear_row r
  | .scrollUp n => g.scroll_up n
  | .scrollDown n => g.scroll_down n
  | .clear => g.clear
  | .resize c r => g.resize c r
  | .clearDirty => g.clear_dirty

/-- Apply a sequence of grid operations. -/
def Grid.applyOps (g : Grid) (ops : List GridOp) : Grid :=
  ops.foldl Grid.applyOp g

/-- Operations that neither scroll, clear, nor resize the grid and do not
call `clear_dirty`: plain cell writes and row clears. -/
def GridOp.nonStructural : GridOp → Prop
  | .set _ _ _ => True
  | .clearRow _ => True
  | _ => False

instance : (op : GridOp) → Decidable op.nonStructural
  | .set _ _ _ => .isTrue trivial
  | .clearRow _ => .isTrue trivial
  | .scrollUp _ => .isFalse fun h => h
  | .scrollDown _ => .isFalse fun h => h
  | .clear => .isFalse fun h => h
  | .resize _ _ => .isFalse fun h => h
  | .clearDirty => .isFalse fun h => h

/-- A row of cells written with the default style, one per character. -/
def mkRow (s : String) : List Cell := s.toList.map Cell.new

/-- The saved cursor, when present, lies in the same (weak) bounds as the
live cursor. -/
def savedOK : Option (Nat × Nat) → Nat → Nat → Prop
  | none, _, _ => True
  | some (c, r), cols, rows => c ≤ cols ∧ r < rows

instance (o : Option (Nat × Nat)) (a b : Nat) : Decidable (savedOK o a b) :=
  match o with
  | none => .isTrue trivial
  | some (_, _) => inferInstanceAs (Decidable (_ ∧ _))

/-- The cursor invariant the emulator actually maintains: on a
non-degenerate grid, `col ≤ cols` (the column may transiently equal
`cols` after writing in the last column, the wrap being deferred to the
next `write_char`) and `row < rows`. -/
def EmuInv (e : Emulator) : Prop :=
  1 ≤ e.grid.cols ∧ 1 ≤ e.grid.rows ∧ e.cursor_col ≤ e.grid.cols ∧
  e.cursor_row < e.grid.rows ∧ savedOK e.saved_cursor e.grid.cols e.grid.rows

instance (e : Emulator) : Decidable (EmuInv e) := by
  unfold EmuInv; infer_instance

/-- Membership of a pixel in a rect (half-open on both axes). -/
def inRect (p : Nat × Nat) (r : Rect) : Prop :=
  r.x ≤ p.1 ∧ p.1 < r.x + r.width ∧ r.y ≤ p.2 ∧ p.2 < r.y + r.height

instance (p : Nat × Nat) (r : Rect) : Decidable (inRect p r) := by
  unfold inRect; infer_instance

/-- Every branch ratio of the tree lies in `[0.1, 0.9]`. -/
def ratiosOK : LayoutNode → Prop
  | .Leaf _ => True
  | .Branch _ r f s => (1/10 : ℚ) ≤ r ∧ r ≤ 9/10 ∧ ratiosOK f ∧ ratiosOK s

/-- `ratiosOK` is decidable. -/
def ratiosOKDec : (n : LayoutNode) → Decidable (ratiosOK n)
  | .Leaf _ => .isTrue trivial
  | .Branch _ r f s =>
    letI := ratiosOKDec f
    letI := ratiosOKDec s
    inferInstanceAs (Decidable ((1/10 : ℚ) ≤ r ∧ r ≤ 9/10 ∧ ratiosOK f ∧ ratiosOK s))

instance (n : LayoutNode) : Decidable (ratiosOK n) := ratiosOKDec n

/-- The image-related part of the emulator state: the two image-parser
states and the image list. -/
def imgState (e : Emulator) : Bool × List Nat × Bool × List Nat × List TerminalImage :=
  (e.kitty_in_sequence, e.kitty_buffer, e.sixel_in_sequence, e.sixel_buffer, e.images)

/-! ## Theorems -/

theorem eraseInDisplayN_img (e : Emulator) (n : Nat) :
    imgState (e.eraseInDisplayN n) = imgState e := by
  unfold Emulator.eraseInDisplayN
  repeat' split
  all_goals rfl

theorem eraseInDisplay_img (e : Emulator) (ps : List Nat) :
    imgState (e.eraseInDisplay ps) = imgState e :=
  eraseInDisplayN_img e _

theorem eraseInLineN_img (e : Emulator) (n : Nat) :
    imgState (e.eraseInLineN n) = imgState e := by
  unfold Emulator.eraseInLineN
  repeat' split
  all_goals rfl

theorem eraseInLine_img (e : Emulator) (ps : List Nat) :
    imgState (e.eraseInLine ps) = imgState e :=
  eraseInLineN_img e _

theorem applyCsi_img (e : Emulator) (ps : List Nat) (c : Char) :
    imgState (e.applyCsi ps c) = imgState e := by
  unfold Emulator.applyCsi
  repeat' split
  all_goals first
    | rfl
    | exact eraseInDisplay_img e ps
    | exact eraseInLine_img e ps

theorem write_char_img (e : Emulator) (c : Char) :
    imgState (e.write_char c) = imgState e := by
  unfold Emulator.write_char
  dsimp only
  repeat' split
  all_goals rfl

theorem applyExecute_img (e : Emulator) (b : Nat) :
    imgState (e.applyExecute b) = imgState e := by
  unfold Emulator.applyExecute Emulator.line_feed Emulator.carriage_return
    Emulator.backspace Emulator.tab
  dsimp only
  repeat' split
  all_goals rfl

/-- No dispatched `Perform` action touches the image list or the image
parser states. -/
theorem applyOp_img (e : Emulator) (op : Op) :
    imgState (e.applyOp op) = imgState e := by
  cases op with
  | print c => exact write_char_img e c
  | execute b => exact applyExecute_img e b
  | csi ps c => exact applyCsi_img e ps c
  | esc b =>
    show imgState (e.applyEsc b) = imgState e
    unfold Emulator.applyEsc
    split <;> rfl

theorem applyOps_img (e : Emulator) (ops : List Op) :
    imgState (e.applyOps ops) = imgState e := by
  induction ops generalizing e with
  | nil => rfl
  | cons op rest ih =>
    have h1 := applyOp_img e op
    have h2 := ih (e.applyOp op)
    simpa [Emulator.applyOps] using h2.trans h1

/-- C9: `TerminalEmulator::process_byte` feeds the byte only to the VT
parser, whose dispatched actions never touch the image list or the image
parser states; hence any sequence of single bytes pushed through
`process_byte` leaves the image list unchanged (only `process_bytes`,
which also feeds the image parsers, can grow it). -/
theorem process_byte_never_adds_images (e : Emulator) (ops : List Op) (b : Nat) :
    (e.applyOps ops).images = e.images
    ∧ (e.applyOps ops).kitty_in_sequence = e.kitty_in_sequence
    ∧ (e.applyOps ops).kitty_buffer = e.kitty_buffer
    ∧ (e.applyOps ops).sixel_in_sequence = e.sixel_in_sequence
    ∧ (e.applyOps ops).sixel_buffer = e.sixel_buffer
    ∧ (e.processPlainByte b).images = e.images := by
  have h := applyOps_img e ops
  have hb : imgState (e.processPlainByte b) = imgState e := by
    unfold Emulator.processPlainByte
    split
    · exact write_char_img e _
    · split
      · exact applyExecute_img e b
      · rfl
  refine ⟨congrArg (fun t => t.2.2.2.2) h, congrArg (fun t => t.1) h,
    congrArg (fun t => t.2.1) h, congrArg (fun t => t.2.2.1) h,
    congrArg (fun t => t.2.2.2.1) h, congrArg (fun t => t.2.2.2.2) hb⟩

/-- C8: `PtyController::read` is non-blocking.  On an empty channel with a
live sender it reports `WouldBlock` and changes nothing; on an empty,
disconnected channel it reports `Ok(0)` (EOF); otherwise it removes
exactly one chunk, copies `min(chunk.len, buf.len)` bytes into the
buffer's prefix, returns that count, and the rest of the chunk is gone. -/
theorem ptyRead_spec (buf : List Nat) (d : Bool) (data : List Nat)
    (rest : List (List Nat)) :
    ptyRead ⟨[], false⟩ buf = (.wouldBlock, buf, ⟨[], false⟩)
    ∧ ptyRead ⟨[], true⟩ buf = (.ok 0, buf, ⟨[], true⟩)
    ∧ ptyRead ⟨data :: rest, d⟩ buf
        = (.ok (min data.length buf.length),
           data.take (min data.length buf.length)
             ++ buf.drop (min data.length buf.length),
           ⟨rest, d⟩)
    ∧ (ptyRead ⟨data :: rest, d⟩ buf).2.2.chunks.length
        = (data :: rest).length - 1
    ∧ min data.length buf.length ≤ buf.length
    ∧ (ptyRead ⟨data :: rest, d⟩ buf).2.1.length = buf.length := by
  refine ⟨rfl, rfl, rfl, by simp [ptyRead], min_le_right _ _, ?_⟩
  simp [ptyRead]

/-- C2 (counterexample): feeding `"a\nb\nc"` (bytes 97 10 98 10 99) to a
fresh 4×2 emulator does NOT leave row 0 equal to `"b   "`: the line feed
keeps the column, so `b` lands in column 1. -/
theorem scroll_scenario_counterexample :
    ((Emulator.new 4 2 100).processPlainBytes [97, 10, 98, 10, 99]).grid.rowAt 0
      ≠ mkRow "b   " := by decide

/-- C2 (amended): feeding `"a\nb\nc"` to a fresh 4×2 emulator leaves
row 0 = `" b  "`, row 1 = `"  c "`, and the scrollback holding exactly the
one row `"a   "` — the columns follow the spec's own line-feed rule
(column unchanged), not the literal scenario. -/
theorem scroll_scenario_actual :
    ((Emulator.new 4 2 100).processPlainBytes [97, 10, 98, 10, 99]).grid.rowAt 0
      = mkRow " b  "
    ∧ ((Emulator.new 4 2 100).processPlainBytes [97, 10, 98, 10, 99]).grid.rowAt 1
      = mkRow "  c "
    ∧ ((Emulator.new 4 2 100).processPlainBytes [97, 10, 98, 10, 99]).grid.scrollback
      = [mkRow "a   "] := by decide

/-- C3 (counterexample): after feeding `"ab"` to a fresh 2×2 emulator the
cursor column equals `cols` (pending wrap), violating `col < cols`. -/
theorem cursor_col_eq_cols_counterexample :
    ((Emulator.new 2 2 5).processPlainBytes [97, 98]).cursor_col = 2
    ∧ ((Emulator.new 2 2 5).processPlainBytes [97, 98]).grid.cols = 2
    ∧ ¬ ((Emulator.new 2 2 5).processPlainBytes [97, 98]).cursor_col
        < ((Emulator.new 2 2 5).processPlainBytes [97, 98]).grid.cols := by decide

/-- C6 (counterexample): a `set` that changes the cell at `(0,0)` puts it
in the dirty set, but a subsequent `scroll_up(1)` — not `clear_dirty` —
empties the dirty set, so membership does not persist across scrolls. -/
theorem dirty_not_persistent_counterexample :
    (Grid.new 2 2 10).get 0 0 = some Cell.default
    ∧ Cell.default ≠ Cell.new 'a'
    ∧ (0, 0) ∈ ((Grid.new 2 2 10).set 0 0 (Cell.new 'a')).dirty_cells
    ∧ (0, 0) ∉ (((Grid.new 2 2 10).set 0 0 (Cell.new 'a')).applyOps
        [.scrollUp 1]).dirty_cells := by decide

/-- C7 (counterexample): in the three-pane layout
`Branch V ½ (Branch H ½ (Leaf 0) (Leaf 2)) (Leaf 1)` over a 40×80 window,
panes 2 and 1 are both strictly below pane 0's centre at the same
Manhattan distance 40, yet `focus_direction` selects pane 2 (the first in
traversal order), not the smallest pane id 1. -/
theorem focus_direction_tiebreak_counterexample :
    ((Layout.mk (.Branch .Vertical (1/2)
        (.Branch .Horizontal (1/2) (.Leaf 0) (.Leaf 2)) (.Leaf 1)) 3).calculate_rects
        ⟨0, 0, 40, 80⟩).find? (fun pr => pr.1 == 0) = some (0, ⟨0, 0, 20, 40⟩)
    ∧ focusCandidates 0 (rectCenter ⟨0, 0, 20, 40⟩) .Down
        ((Layout.mk (.Branch .Vertical (1/2)
          (.Branch .Horizontal (1/2) (.Leaf 0) (.Leaf 2)) (.Leaf 1)) 3).calculate_rects
          ⟨0, 0, 40, 80⟩) = [(2, 40), (1, 40)]
    ∧ focusDirection (Layout.mk (.Branch .Vertical (1/2)
        (.Branch .Horizontal (1/2) (.Leaf 0) (.Leaf 2)) (.Leaf 1)) 3) 0
        ⟨0, 0, 40, 80⟩ .Down = some 2
    ∧ (1 : PaneId) < 2 := by
  have h1 : ratioMul 40 (1/2) = 20 := by unfold ratioMul; norm_num; rfl
  have h2 : ratioMul 80 (1/2) = 40 := by unfold ratioMul; norm_num; rfl
  simp only [Layout.calculate_rects, calcNodeRects, splitRects, focusDirection, h1, h2]
  decide

theorem splitNode_not_found {t : LayoutNode} {p : PaneId} (d : SplitDirection)
    (nid : PaneId) (r : ℚ) (hp : p ∉ allIds t) :
    splitNode t p d nid r = (t, false) := by
  induction t with
  | Leaf q =>
    simp only [allIds, List.mem_singleton] at hp
    simp [splitNode, Ne.symm hp]
  | Branch d0 r0 f s ihf ihs =>
    simp only [allIds, List.mem_append] at hp
    push_neg at hp
    simp [splitNode, ihf hp.1, ihs hp.2]

theorem splitNode_found {t : LayoutNode} {p : PaneId} (d : SplitDirection)
    (nid : PaneId) (r : ℚ) (hp : p ∈ allIds t) :
    (splitNode t p d nid r).2 = true := by
  induction t with
  | Leaf q =>
    simp only [allIds, List.mem_singleton] at hp
    simp [splitNode, hp]
  | Branch d0 r0 f s ihf ihs =>
    simp only [allIds, List.mem_append] at hp
    by_cases hf : (splitNode f p d nid r).2 = true
    · simp [splitNode, hf]
    · rcases hp with h | h
      · exact absurd (ihf h) hf
      · simp [splitNode, hf, ihs h]

theorem splitNode_not_success_unchanged {t : LayoutNode} {p : PaneId}
    {d : SplitDirection} {nid : PaneId} {r : ℚ}
    (h : (splitNode t p d nid r).2 = false) :
    (splitNode t p d nid r).1 = t := by
  induction t with
  | Leaf q =>
    by_cases hq : q = p
    · simp [splitNode, hq] at h
    · simp [splitNode, hq]
  | Branch d0 r0 f s ihf ihs =>
    by_cases hf : (splitNode f p d nid r).2 = true
    · simp [splitNode, hf] at h
    · simp only [splitNode, hf, Bool.false_eq_true, if_false] at h ⊢
      rw [ihs h]

theorem splitNode_success_isBranch {t : LayoutNode} {p : PaneId}
    {d : SplitDirection} {nid : PaneId} {r : ℚ}
    (h : (splitNode t p d nid r).2 = true) (x : PaneId) :
    isLeafWithId (splitNode t p d nid r).1 x = false := by
  cases t with
  | Leaf q =>
    by_cases hq : q = p
    · simp [splitNode, hq, isLeafWithId]
    · simp [splitNode, hq] at h
  | Branch d0 r0 f s =>
    by_cases hf : (splitNode f p d nid r).2 = true
    · simp [splitNode, hf, isLeafWithId]
    · simp [splitNode, hf, isLeafWithId]

theorem isLeafWithId_of_notMem {t : LayoutNode} {x : PaneId}
    (h : x ∉ allIds t) : isLeafWithId t x = false := by
  cases t with
  | Leaf q =>
    simp only [allIds, List.mem_singleton] at h
    simp [isLeafWithId, Ne.symm h]
  | Branch d0 r0 f s => rfl

theorem removeNode_of_notMem {t : LayoutNode} {x : PaneId}
    (h : x ∉ allIds t) : removeNode t x = (t, false) := by
  induction t with
  | Leaf q => rfl
  | Branch d0 r0 f s ihf ihs =>
    simp only [allIds, List.mem_append] at h
    push_neg at h
    simp [removeNode, isLeafWithId_of_notMem h.1, isLeafWithId_of_notMem h.2,
      ihf h.1, ihs h.2]

theorem removeNode_splitNode {t : LayoutNode} {p nid : PaneId}
    (d : SplitDirection) (r : ℚ)
    (hp : p ∈ allIds t) (hnid : nid ∉ allIds t) :
    removeNode (splitNode t p d nid r).1 nid = (t, true) := by
  induction t with
  | Leaf q =>
    simp only [allIds, List.mem_singleton] at hp hnid
    subst hp
    simp [splitNode, removeNode, isLeafWithId, Ne.symm hnid]
  | Branch d0 r0 f s ihf ihs =>
    simp only [allIds, List.mem_append] at hp hnid
    push_neg at hnid
    by_cases hf2 : (splitNode f p d nid r).2 = true
    · have hpf : p ∈ allIds f := by
        by_contra hnp
        rw [splitNode_not_found d nid r hnp] at hf2
        simp at hf2
      simp only [splitNode, hf2, if_true]
      simp [removeNode, splitNode_success_isBranch hf2 nid,
        isLeafWithId_of_notMem hnid.2, ihf hpf hnid.1]
    · have hps : p ∈ allIds s := by
        rcases hp with h | h
        · exact absurd (splitNode_found d nid r h) hf2
        · exact h
      have hs2 : (splitNode s p d nid r).2 = true := splitNode_found d nid r hps
      simp only [splitNode, hf2, Bool.false_eq_true, if_false]
      simp [removeNode, isLeafWithId_of_notMem hnid.1,
        splitNode_success_isBranch hs2 nid, removeNode_of_notMem hnid.1,
        ihs hps hnid.2]

/-- C5: on a tree whose leaf ids are all below `next_id` (so the freshly
allocated id is really fresh), splitting a present leaf `p` and then
removing the returned new pane id restores the tree exactly. -/
theorem split_then_remove_restores (l : Layout) (p : PaneId) (d : SplitDirection)
    (r : ℚ)
    (hids : ∀ q ∈ l.all_pane_ids, q < l.next_id)
    (hnodup : l.all_pane_ids.Nodup)
    (hp : p ∈ l.all_pane_ids) :
    (l.split_pane_with_ratio p d r).2 = some l.next_id
    ∧ ((l.split_pane_with_ratio p d r).1.remove_pane l.next_id).1.root = l.root
    ∧ ((l.split_pane_with_ratio p d r).1.remove_pane l.next_id).2 = true := by
  have hnid : l.next_id ∉ allIds l.root := fun h => lt_irrefl _ (hids _ h)
  have hsucc := splitNode_found d l.next_id r hp
  have hroot : (l.split_pane_with_ratio p d r).1.root
      = (splitNode l.root p d l.next_id r).1 := by
    unfold Layout.split_pane_with_ratio
    dsimp only
    split <;> rfl
  have hrm := removeNode_splitNode d r hp hnid
  refine ⟨by simp [Layout.split_pane_with_ratio, hsucc], ?_, ?_⟩ <;>
    simp [Layout.remove_pane, hroot, splitNode_success_isBranch hsucc l.next_id, hrm]

/-- C5 (witness): splitting pane 1 of the two-pane layout
`Branch V ½ (Leaf 0) (Leaf 1)` with `next_id = 2` and removing the new
pane 2 restores the original tree. -/
theorem split_then_remove_restores_witness :
    ((Layout.mk (.Branch .Vertical (1/2) (.Leaf 0) (.Leaf 1)) 2).split_pane_with_ratio
        1 .Horizontal (1/2)).2 = some 2
    ∧ (((Layout.mk (.Branch .Vertical (1/2) (.Leaf 0) (.Leaf 1)) 2).split_pane_with_ratio
        1 .Horizontal (1/2)).1.remove_pane 2).1.root
      = .Branch .Vertical (1/2) (.Leaf 0) (.Leaf 1) :=
  have h := split_then_remove_restores
    (Layout.mk (.Branch .Vertical (1/2) (.Leaf 0) (.Leaf 1)) 2) 1 .Horizontal (1/2)
    (by decide) (by decide) (by decide)
  ⟨h.1, h.2.1⟩

/-- C10: when no leaf has pane id `p`, `split_pane_with_ratio` returns
`None` and leaves the tree unchanged, yet still increments `next_id` —
so the id skipped here is never handed out: a later successful split on
the resulting layout returns `next_id + 1`. -/
theorem split_pane_missing_target (l : Layout) (p : PaneId) (d d' : SplitDirection)
    (r r' : ℚ) (hp : p ∉ l.all_pane_ids) :
    (l.split_pane_with_ratio p d r).2 = none
    ∧ (l.split_pane_with_ratio p d r).1.root = l.root
    ∧ (l.split_pane_with_ratio p d r).1.next_id = l.next_id + 1
    ∧ ∀ q ∈ l.all_pane_ids,
        ((l.split_pane_with_ratio p d r).1.split_pane_with_ratio q d' r').2
          = some (l.next_id + 1) := by
  have hfail := splitNode_not_found (t := l.root) d l.next_id r hp
  have h1 : l.split_pane_with_ratio p d r
      = ({ root := l.root, next_id := l.next_id + 1 }, none) := by
    simp [Layout.split_pane_with_ratio, hfail]
  refine ⟨by rw [h1], by rw [h1], by rw [h1], ?_⟩
  intro q hq
  rw [h1]
  have hq2 := splitNode_found (t := l.root) d' (l.next_id + 1) r' hq
  simp [Layout.split_pane_with_ratio, hq2]

/-- C10 (witness): splitting at the absent pane id 5 in the fresh
single-pane layout returns `None`, keeps the tree, bumps `next_id` to 2,
and the next successful split of pane 0 returns id 2 (skipping 1). -/
theorem split_pane_missing_target_witness :
    (Layout.new.split_pane_with_ratio 5 .Vertical (1/2)).2 = none
    ∧ (Layout.new.split_pane_with_ratio 5 .Vertical (1/2)).1.root = Layout.new.root
    ∧ (Layout.new.split_pane_with_ratio 5 .Vertical (1/2)).1.next_id = 2
    ∧ ((Layout.new.split_pane_with_ratio 5 .Vertical (1/2)).1.split_pane_with_ratio
        0 .Vertical (1/2)).2 = some 2 :=
  have h := split_pane_missing_target Layout.new 5 .Vertical .Vertical (1/2) (1/2)
    (by decide)
  ⟨h.1, h.2.1, h.2.2.1, h.2.2.2 0 (by decide)⟩

theorem sbPush_eq (maxSb : Nat) (sb : List (List Cell)) (line : List Cell)
    (h : sb.length ≤ maxSb) :
    sbPush maxSb sb line = (sb ++ [line]).drop (sb.length + 1 - maxSb) := by
  unfold sbPush
  dsimp only
  split
  case isTrue hlt =>
    simp only [List.length_append, List.length_singleton] at hlt
    have h1 : sb.length + 1 - maxSb = 1 := by omega
    rw [h1]
  case isFalse hge =>
    simp only [List.length_append, List.length_singleton] at hge
    have h0 : sb.length + 1 - maxSb = 0 := by omega
    rw [h0, List.drop_zero]

theorem sbFold_eq (maxSb : Nat) (ls : List (List Cell)) :
    ∀ (sb : List (List Cell)), sb.length ≤ maxSb →
      ls.foldl (sbPush maxSb) sb = (sb ++ ls).drop (sb.length + ls.length - maxSb) := by
  induction ls with
  | nil =>
    intro sb h
    simp only [List.foldl_nil, List.append_nil, List.length_nil, Nat.add_zero]
    rw [Nat.sub_eq_zero_of_le h, List.drop_zero]
  | cons l ls ih =>
    intro sb h
    rw [List.foldl_cons, sbPush_eq maxSb sb l h]
    have hd1 : sb.length + 1 - maxSb ≤ (sb ++ [l]).length := by
      simp only [List.length_append, List.length_singleton]
      omega
    have hlen2 : ((sb ++ [l]).drop (sb.length + 1 - maxSb)).length ≤ maxSb := by
      simp only [List.length_drop, List.length_append, List.length_singleton]
      omega
    rw [ih _ hlen2, ← List.drop_append_of_le_length hd1, List.drop_drop]
    have harr : (sb ++ [l]) ++ ls = sb ++ l :: ls := by simp
    rw [harr]
    congr 1
    simp only [List.length_drop, List.length_append, List.length_singleton,
      List.length_cons, List.length_nil]
    omega

/-- C1: `Grid::scroll_up(n)` with `0 < n < rows`, on a grid satisfying the
representation invariants: the top `n` rows are appended to the end of the
scrollback oldest-first (with the oldest scrollback rows dropped exactly
when the cap overflows), every remaining row moves up by `n`, the bottom
`n` rows become default cells, the cell-buffer length is preserved, the
dirty set is cleared and `full_redraw_needed` is set; afterwards
`scrollback.len() ≤ max_scrollback`. -/
theorem scroll_up_spec (g : Grid) (n : Nat)
    (hlen : g.cells.length = g.cols * g.rows)
    (hsb : g.scrollback.length ≤ g.max_scrollback)
    (h0 : 0 < n) (hn : n < g.rows) :
    (g.scroll_up n).scrollback
      = (g.scrollback ++ (List.range n).map g.rowAt).drop
          (g.scrollback.length + n - g.max_scrollback)
    ∧ (g.scroll_up n).scrollback.length ≤ g.max_scrollback
    ∧ (∀ r, r + n < g.rows → (g.scroll_up n).rowAt r = g.rowAt (r + n))
    ∧ (g.scroll_up n).cells.drop ((g.rows - n) * g.cols)
        = List.replicate (n * g.cols) Cell.default
    ∧ (g.scroll_up n).cells.length = g.cols * g.rows
    ∧ (g.scroll_up n).dirty_cells = ∅
    ∧ (g.scroll_up n).full_redraw_needed = true := by
  have hguard : ¬ (n = 0 ∨ g.rows ≤ n) := by omega
  have hshift_le : n * g.cols ≤ g.cells.length := by
    have h1 : n * g.cols ≤ g.rows * g.cols := Nat.mul_le_mul_right g.cols (le_of_lt hn)
    rw [hlen, Nat.mul_comm g.cols g.rows]
    exact h1
  have hclear : g.cells.length - n * g.cols = (g.rows - n) * g.cols := by
    rw [hlen, Nat.sub_mul, Nat.mul_comm g.cols g.rows]
  have hdropA : (g.cells.drop (n * g.cols)).length = (g.rows - n) * g.cols := by
    rw [List.length_drop, hclear]
  have hcols : (g.scroll_up n).cols = g.cols := by
    unfold Grid.scroll_up; split <;> rfl
  have hcells : (g.scroll_up n).cells
      = g.cells.drop (n * g.cols) ++ List.replicate (n * g.cols) Cell.default := by
    unfold Grid.scroll_up
    rw [if_neg hguard]
    dsimp only
    rw [List.take_left' hdropA]
    have hidx : g.cells.length - (g.rows - n) * g.cols = n * g.cols := by
      rw [← hclear]; omega
    rw [hidx]
  have hsbeq : (g.scroll_up n).scrollback
      = (g.scrollback ++ (List.range n).map g.rowAt).drop
          (g.scrollback.length + n - g.max_scrollback) := by
    unfold Grid.scroll_up
    rw [if_neg hguard]
    dsimp only
    rw [show (fun sb i => sbPush g.max_scrollback sb ((g.cells.drop (i * g.cols)).take g.cols))
        = (fun sb i => sbPush g.max_scrollback sb (g.rowAt i)) from rfl]
    rw [← List.foldl_map g.rowAt (sbPush g.max_scrollback) (List.range n) g.scrollback]
    rw [sbFold_eq g.max_scrollback _ _ hsb]
    simp
  refine ⟨hsbeq, ?_, ?_, ?_, ?_, ?_, ?_⟩
  · rw [hsbeq]
    simp only [List.length_drop, List.length_append, List.length_map,
      List.length_range]
    omega
  · intro r hr
    have hrow_le : r * g.cols + g.cols ≤ (g.rows - n) * g.cols := by
      have h1 : r + 1 ≤ g.rows - n := by omega
      calc r * g.cols + g.cols = (r + 1) * g.cols := by rw [Nat.add_mul, Nat.one_mul]
        _ ≤ (g.rows - n) * g.cols := Nat.mul_le_mul_right g.cols h1
    unfold Grid.rowAt
    rw [hcols, hcells]
    rw [List.drop_append_of_le_length (by rw [hdropA]; omega)]
    rw [List.take_append_of_le_length (by rw [List.length_drop, hdropA]; omega)]
    rw [List.drop_drop]
    congr 2
    rw [Nat.add_mul]
    omega
  · rw [hcells, List.drop_left' hdropA]
  · rw [hcells]
    simp only [List.length_append, List.length_drop, List.length_replicate]
    omega
  · unfold Grid.scroll_up
    rw [if_neg hguard]
  · unfold Grid.scroll_up
    rw [if_neg hguard]

/-- C1 (witness): the theorem applied to the fresh 2×3 grid with
`max_scrollback = 1`, scrolling 2 rows. -/
theorem scroll_up_spec_witness :
    ((Grid.new 2 3 1).scroll_up 2).scrollback
      = ((Grid.new 2 3 1).scrollback
          ++ (List.range 2).map (Grid.new 2 3 1).rowAt).drop
          ((Grid.new 2 3 1).scrollback.length + 2 - (Grid.new 2 3 1).max_scrollback)
    ∧ ((Grid.new 2 3 1).scroll_up 2).scrollback.length
        ≤ (Grid.new 2 3 1).max_scrollback
    ∧ ((Grid.new 2 3 1).scroll_up 2).dirty_cells = ∅
    ∧ ((Grid.new 2 3 1).scroll_up 2).full_redraw_needed = true :=
  have h := scroll_up_spec (Grid.new 2 3 1) 2 (by decide) (by decide)
    (by decide) (by decide)
  ⟨h.1, h.2.1, h.2.2.2.2.2.1, h.2.2.2.2.2.2⟩

theorem dirty_mono (g : Grid) (op : GridOp) (hop : op.nonStructural)
    (x : Nat × Nat) (hx : x ∈ g.dirty_cells) :
    x ∈ (g.applyOp op).dirty_cells := by
  cases op with
  | set c r cell =>
    show x ∈ (g.set c r cell).dirty_cells
    unfold Grid.set
    repeat' split
    · exact Finset.mem_insert_of_mem hx
    all_goals exact hx
  | clearRow r =>
    show x ∈ (g.clear_row r).dirty_cells
    unfold Grid.clear_row
    split
    · exact Finset.mem_union_left _ hx
    · exact hx
  | scrollUp n => exact absurd hop (by simp [GridOp.nonStructural])
  | scrollDown n => exact absurd hop (by simp [GridOp.nonStructural])
  | clear => exact absurd hop (by simp [GridOp.nonStructural])
  | resize a b => exact absurd hop (by simp [GridOp.nonStructural])
  | clearDirty => exact absurd hop (by simp [GridOp.nonStructural])

/-- C6 (amended): a `set` that changes the stored cell puts `(col,row)`
into `dirty_cells`, and it stays there across any further non-structural
operations (`set`, `clear_row`); but every structural event —
`scroll_up`/`scroll_down` with `0 < m < rows`, `clear`, `resize` — empties
the dirty set while setting `full_redraw_needed` (the flag subsumes it),
so membership persists only until `clear_dirty` *or* a structural event. -/
theorem set_dirty_until_structural (g : Grid) (col row : Nat) (cell c : Cell)
    (hget : g.get col row = some c) (hne : c ≠ cell) (ops : List GridOp)
    (hops : ∀ op ∈ ops, op.nonStructural) :
    (col, row) ∈ (g.set col row cell).dirty_cells
    ∧ (col, row) ∈ ((g.set col row cell).applyOps ops).dirty_cells
    ∧ (∀ (g' : Grid) (m : Nat), 0 < m → m < g'.rows →
        (g'.scroll_up m).dirty_cells = ∅ ∧ (g'.scroll_up m).full_redraw_needed = true
        ∧ (g'.scroll_down m).dirty_cells = ∅
        ∧ (g'.scroll_down m).full_redraw_needed = true)
    ∧ (∀ (g' : Grid) (a b : Nat),
        (g'.resize a b).dirty_cells = ∅ ∧ (g'.resize a b).full_redraw_needed = true
        ∧ g'.clear.dirty_cells = ∅ ∧ g'.clear.full_redraw_needed = true) := by
  have hbounds : (col < g.cols ∧ row < g.rows)
      ∧ g.cells.get? (row * g.cols + col) = some c := by
    unfold Grid.get at hget
    by_cases h : col < g.cols ∧ row < g.rows
    · rw [if_pos h] at hget; exact ⟨h, hget⟩
    · rw [if_neg h] at hget; cases hget
  have hmem : (col, row) ∈ (g.set col row cell).dirty_cells := by
    unfold Grid.set
    rw [if_pos hbounds.1, hbounds.2]
    dsimp only
    rw [if_pos hne]
    exact Finset.mem_insert_self _ _
  have hpersist : ∀ (ops : List GridOp) (g0 : Grid),
      (∀ op ∈ ops, op.nonStructural) → (col, row) ∈ g0.dirty_cells →
      (col, row) ∈ (g0.applyOps ops).dirty_cells := by
    intro ops
    induction ops with
    | nil => intro g0 _ h; exact h
    | cons op rest ih =>
      intro g0 hall h
      exact ih (g0.applyOp op) (fun o ho => hall o (List.mem_cons_of_mem _ ho))
        (dirty_mono g0 op (hall op (List.mem_cons_self _ _)) _ h)
  refine ⟨hmem, hpersist ops _ hops hmem, ?_, ?_⟩
  · intro g' m h0 hm
    have hg : ¬ (m = 0 ∨ g'.rows ≤ m) := by omega
    refine ⟨?_, ?_, ?_, ?_⟩ <;>
      simp only [Grid.scroll_up, Grid.scroll_down, if_neg hg]
  · intro g' a b
    exact ⟨rfl, rfl, rfl, rfl⟩

/-- C6 (amended, witness): the theorem applied to a 2×2 grid, writing
`'a'` at `(0,0)` and then performing another `set` and a `clear_row`. -/
theorem set_dirty_until_structural_witness :
    (0, 0) ∈ ((Grid.new 2 2 10).set 0 0 (Cell.new 'a')).dirty_cells
    ∧ (0, 0) ∈ (((Grid.new 2 2 10).set 0 0 (Cell.new 'a')).applyOps
        [.set 1 1 (Cell.new 'x'), .clearRow 0]).dirty_cells :=
  have h := set_dirty_until_structural (Grid.new 2 2 10) 0 0 (Cell.new 'a')
    Cell.default (by decide) (by decide)
    [.set 1 1 (Cell.new 'x'), .clearRow 0] (by decide)
  ⟨h.1, h.2.1⟩

theorem firstMinBy_cons (f : α → Nat) (x : α) (xs : List α) :
    firstMinBy f (x :: xs)
      = match firstMinBy f xs with
        | none => some x
        | some y => if f x ≤ f y then some x else some y := rfl

theorem firstMinBy_mem {f : α → Nat} {xs : List α} {y : α}
    (h : firstMinBy f xs = some y) : y ∈ xs := by
  induction xs with
  | nil => cases h
  | cons x xs ih =>
    rw [firstMinBy_cons] at h
    cases hm : firstMinBy f xs with
    | none => rw [hm] at h; cases h; exact List.mem_cons_self _ _
    | some z =>
      rw [hm] at h
      dsimp only at h
      by_cases hle : f x ≤ f z
      · rw [if_pos hle] at h; cases h; exact List.mem_cons_self _ _
      · rw [if_neg hle] at h; cases h; exact List.mem_cons_of_mem _ (ih hm)

theorem focusFold_firstMin (xs : List (PaneId × Nat)) :
    ∀ (b : Option PaneId × Nat),
      xs.foldl (fun acc x => if x.2 < acc.2 then (some x.1, x.2) else acc) b
        = match firstMinBy Prod.snd xs with
          | none => b
          | some y => if y.2 < b.2 then (some y.1, y.2) else b := by
  induction xs with
  | nil => intro b; rfl
  | cons x xs ih =>
    intro b
    rw [List.foldl_cons, ih, firstMinBy_cons]
    cases hm : firstMinBy Prod.snd xs with
    | none => simp only [hm]
    | some y =>
      simp only [hm]
      by_cases h1 : x.2 ≤ y.2
      · simp only [if_pos h1]
        by_cases h2 : x.2 < b.2
        · simp only [if_pos h2]
          have hy : ¬ y.2 < (some x.1, x.2).2 := by simp; omega
          simp [hy, h2]
        · simp only [if_neg h2]
          have hy : ¬ y.2 < b.2 := by omega
          simp [hy, h2]
      · simp only [if_neg h1]
        by_cases h2 : x.2 < b.2
        · simp only [if_pos h2]
          have hy : y.2 < (some x.1, x.2).2 := by simp; omega
          have hyb : y.2 < b.2 := by omega
          simp [hy, hyb]
        · simp only [if_neg h2]

theorem focusScan_candidates (active : PaneId) (cur : Nat × Nat) (d : Direction)
    (rects : List (PaneId × Rect)) :
    ∀ (b : Option PaneId × Nat),
      rects.foldl (focusStep active cur d) b
        = (focusCandidates active cur d rects).foldl
            (fun acc x => if x.2 < acc.2 then (some x.1, x.2) else acc) b := by
  induction rects with
  | nil => intro b; rfl
  | cons pr rects ih =>
    intro b
    rw [List.foldl_cons]
    unfold focusCandidates
    by_cases h1 : pr.1 = active
    · have hstep : focusStep active cur d b pr = b := by
        unfold focusStep; rw [if_pos h1]
      rw [hstep, List.filter_cons_of_neg (by simp [h1]), ih]
      rfl
    · by_cases h2 : isInDirection d cur (rectCenter pr.2) = true
      · have hstep : focusStep active cur d b pr
            = if manhattanDist (rectCenter pr.2) cur < b.2
              then (some pr.1, manhattanDist (rectCenter pr.2) cur) else b := by
          unfold focusStep; rw [if_neg h1, if_pos h2]
        rw [hstep, List.filter_cons_of_pos (by simp [h1, h2]), List.map_cons,
          List.foldl_cons, ih]
        rfl
      · have hstep : focusStep active cur d b pr = b := by
          unfold focusStep
          rw [if_neg h1, if_neg h2]
        have h2' : isInDirection d cur (rectCenter pr.2) = false := by
          simpa using h2
        rw [hstep, List.filter_cons_of_neg (by simp [h2']), ih]
        rfl

/-- C7 (amended): `focus_direction` considers exactly the panes whose
centre is strictly in direction `d` from the active centre and selects
among them the one with the smallest Manhattan distance, but ties are
broken by the FIRST candidate in `calculate_rects` traversal order (the
in-order walk of the layout tree), not by smallest pane id.  Stated for
candidate distances below the `u32::MAX` initial best. -/
theorem focus_direction_first_min (l : Layout) (active : PaneId) (w : Rect)
    (d : Direction) (cur : PaneId × Rect)
    (hcur : (l.calculate_rects w).find? (fun pr => pr.1 == active) = some cur)
    (hsmall : ∀ x ∈ focusCandidates active (rectCenter cur.2) d (l.calculate_rects w),
        x.2 < 4294967295) :
    focusDirection l active w d
      = (firstMinBy Prod.snd
          (focusCandidates active (rectCenter cur.2) d (l.calculate_rects w))).map
          Prod.fst := by
  unfold focusDirection
  dsimp only
  rw [hcur]
  dsimp only
  rw [focusScan_candidates, focusFold_firstMin]
  cases hm : firstMinBy Prod.snd
      (focusCandidates active (rectCenter cur.2) d (l.calculate_rects w)) with
  | none => rfl
  | some y =>
    have hy := hsmall y (firstMinBy_mem hm)
    simp [hy]

/-- C7 (amended, witness): in the tied three-pane layout the function
returns exactly the first minimal-distance candidate in traversal order. -/
theorem focus_direction_first_min_witness :
    focusDirection (Layout.mk (.Branch .Vertical (1/2)
        (.Branch .Horizontal (1/2) (.Leaf 0) (.Leaf 2)) (.Leaf 1)) 3) 0
        ⟨0, 0, 40, 80⟩ .Down
      = (firstMinBy Prod.snd
          (focusCandidates 0 (rectCenter ⟨0, 0, 20, 40⟩) .Down
            ((Layout.mk (.Branch .Vertical (1/2)
              (.Branch .Horizontal (1/2) (.Leaf 0) (.Leaf 2)) (.Leaf 1)) 3).calculate_rects
              ⟨0, 0, 40, 80⟩))).map Prod.fst := by
  have h1 : ratioMul 40 (1/2) = 20 := by unfold ratioMul; norm_num; rfl
  have h2 : ratioMul 80 (1/2) = 40 := by unfold ratioMul; norm_num; rfl
  refine focus_direction_first_min _ 0 _ .Down (0, ⟨0, 0, 20, 40⟩) ?_ ?_
  · simp only [Layout.calculate_rects, calcNodeRects, splitRects, h1, h2]
    decide
  · simp only [Layout.calculate_rects, calcNodeRects, splitRects, h1, h2]
    decide

theorem ratioMul_le (n : Nat) (r : ℚ) (h0 : 0 ≤ r) (h1 : r ≤ 1) :
    ratioMul n r ≤ n := by
  unfold ratioMul
  have hle : (n : ℚ) * r ≤ (n : ℚ) :=
    mul_le_of_le_one_right (by positivity) h1
  have hfl : ⌊(n : ℚ) * r⌋ ≤ ⌊(n : ℚ)⌋ := Int.floor_le_floor hle
  rw [Int.floor_natCast] at hfl
  exact Int.toNat_le.mpr hfl

theorem splitRects_cover_disjoint (d : SplitDirection) (r : ℚ) (rect : Rect)
    (h0 : 0 ≤ r) (h1 : r ≤ 1) :
    (∀ p, inRect p rect
        ↔ (inRect p (splitRects d r rect).1 ∨ inRect p (splitRects d r rect).2))
    ∧ (∀ p, inRect p (splitRects d r rect).1 → ¬ inRect p (splitRects d r rect).2) := by
  cases d with
  | Horizontal =>
    have hf : ratioMul rect.height r ≤ rect.height := ratioMul_le _ _ h0 h1
    unfold splitRects inRect
    dsimp only
    exact ⟨fun p => by omega, fun p => by omega⟩
  | Vertical =>
    have hf : ratioMul rect.width r ≤ rect.width := ratioMul_le _ _ h0 h1
    unfold splitRects inRect
    dsimp only
    exact ⟨fun p => by omega, fun p => by omega⟩

theorem calcNodeRects_ids (node : LayoutNode) :
    ∀ rect : Rect, (calcNodeRects node rect).map Prod.fst = allIds node := by
  induction node with
  | Leaf p => intro rect; rfl
  | Branch d r f s ihf ihs =>
    intro rect
    simp only [calcNodeRects, allIds, List.map_append, ihf, ihs]

theorem ratiosOK_branch {d : SplitDirection} {r : ℚ} {f s : LayoutNode}
    (h : ratiosOK (.Branch d r f s)) :
    (0 : ℚ) ≤ r ∧ r ≤ 1 ∧ ratiosOK f ∧ ratiosOK s := by
  have h' : (1/10 : ℚ) ≤ r ∧ r ≤ 9/10 ∧ ratiosOK f ∧ ratiosOK s := h
  exact ⟨by linarith [h'.1], by linarith [h'.2.1], h'.2.2.1, h'.2.2.2⟩

theorem calcNodeRects_subset (node : LayoutNode) :
    ∀ (rect : Rect), ratiosOK node →
      ∀ pr ∈ calcNodeRects node rect, ∀ p, inRect p pr.2 → inRect p rect := by
  induction node with
  | Leaf q =>
    intro rect _ pr hpr p hp
    simp only [calcNodeRects, List.mem_singleton] at hpr
    rw [hpr] at hp
    exact hp
  | Branch d r f s ihf ihs =>
    intro rect hr pr hpr p hp
    obtain ⟨h0, h1, hf, hs⟩ := ratiosOK_branch hr
    have hkey := splitRects_cover_disjoint d r rect h0 h1
    simp only [calcNodeRects, List.mem_append] at hpr
    rcases hpr with h | h
    · exact (hkey.1 p).mpr (Or.inl (ihf _ hf pr h p hp))
    · exact (hkey.1 p).mpr (Or.inr (ihs _ hs pr h p hp))

theorem calcNodeRects_cover (node : LayoutNode) :
    ∀ (rect : Rect), ratiosOK node → ∀ p : Nat × Nat,
      (inRect p rect ↔ ∃ pr ∈ calcNodeRects node rect, inRect p pr.2) := by
  induction node with
  | Leaf q =>
    intro rect _ p
    simp [calcNodeRects]
  | Branch d r f s ihf ihs =>
    intro rect hr p
    obtain ⟨h0, h1, hf, hs⟩ := ratiosOK_branch hr
    have hkey := splitRects_cover_disjoint d r rect h0 h1
    rw [hkey.1 p]
    constructor
    · rintro (h | h)
      · obtain ⟨pr, hm, hin⟩ := (ihf _ hf p).mp h
        exact ⟨pr, by simp only [calcNodeRects, List.mem_append]; exact Or.inl hm, hin⟩
      · obtain ⟨pr, hm, hin⟩ := (ihs _ hs p).mp h
        exact ⟨pr, by simp only [calcNodeRects, List.mem_append]; exact Or.inr hm, hin⟩
    · rintro ⟨pr, hm, hin⟩
      simp only [calcNodeRects, List.mem_append] at hm
      rcases hm with hm | hm
      · exact Or.inl ((ihf _ hf p).mpr ⟨pr, hm, hin⟩)
      · exact Or.inr ((ihs _ hs p).mpr ⟨pr, hm, hin⟩)

theorem calcNodeRects_pairwise (node : LayoutNode) :
    ∀ (rect : Rect), ratiosOK node →
      (calcNodeRects node rect).Pairwise
        (fun a b => ∀ p, inRect p a.2 → ¬ inRect p b.2) := by
  induction node with
  | Leaf q => intro rect _; simp [calcNodeRects]
  | Branch d r f s ihf ihs =>
    intro rect hr
    obtain ⟨h0, h1, hf, hs⟩ := ratiosOK_branch hr
    have hkey := splitRects_cover_disjoint d r rect h0 h1
    show (calcNodeRects f (splitRects d r rect).1
      ++ calcNodeRects s (splitRects d r rect).2).Pairwise _
    rw [List.pairwise_append]
    refine ⟨ihf _ hf, ihs _ hs, ?_⟩
    intro a ha b hb p hpa hpb
    have hin1 : inRect p (splitRects d r rect).1 :=
      calcNodeRects_subset f _ hf a ha p hpa
    have hin2 : inRect p (splitRects d r rect).2 :=
      calcNodeRects_subset s _ hs b hb p hpb
    exact hkey.2 p hin1 hin2

/-- C4: for a layout tree with distinct leaf ids and all branch ratios in
`[0.1, 0.9]`, `calculate_rects(W)` lists exactly `all_pane_ids()` (so its
id sequence is a permutation of them), the returned rectangles exactly
partition `W` (every point of `W` lies in some returned rect, and the
rects are pairwise disjoint), and at each branch the first child's extent
along the split axis is `⌊extent * ratio⌋`, the second child's extent is
the remainder, and the second child starts exactly where the first ends. -/
theorem calculate_rects_partition (l : Layout) (W : Rect)
    (hnodup : l.all_pane_ids.Nodup) (hr : ratiosOK l.root) :
    ((l.calculate_rects W).map Prod.fst).Perm l.all_pane_ids
    ∧ (∀ p, inRect p W ↔ ∃ pr ∈ l.calculate_rects W, inRect p pr.2)
    ∧ (l.calculate_rects W).Pairwise
        (fun a b => ∀ p, inRect p a.2 → ¬ inRect p b.2)
    ∧ (∀ (q : ℚ) (rect : Rect), (1 : ℚ)/10 ≤ q → q ≤ 9/10 →
        (splitRects .Horizontal q rect).1.height = (⌊(rect.height : ℚ) * q⌋).toNat
        ∧ (splitRects .Horizontal q rect).2.height
            = rect.height - (splitRects .Horizontal q rect).1.height
        ∧ (splitRects .Horizontal q rect).1.height
            + (splitRects .Horizontal q rect).2.height = rect.height
        ∧ (splitRects .Horizontal q rect).2.y
            = rect.y + (splitRects .Horizontal q rect).1.height
        ∧ (splitRects .Vertical q rect).1.width = (⌊(rect.width : ℚ) * q⌋).toNat
        ∧ (splitRects .Vertical q rect).2.width
            = rect.width - (splitRects .Vertical q rect).1.width
        ∧ (splitRects .Vertical q rect).1.width
            + (splitRects .Vertical q rect).2.width = rect.width
        ∧ (splitRects .Vertical q rect).2.x
            = rect.x + (splitRects .Vertical q rect).1.width) := by
  refine ⟨?_, calcNodeRects_cover l.root W hr, calcNodeRects_pairwise l.root W hr, ?_⟩
  · rw [show (l.calculate_rects W).map Prod.fst = l.all_pane_ids from
      calcNodeRects_ids l.root W]
  · intro q rect hq1 hq2
    have h0 : (0 : ℚ) ≤ q := by linarith
    have h1 : q ≤ 1 := by linarith
    have hh : ratioMul rect.height q ≤ rect.height := ratioMul_le _ _ h0 h1
    have hw : ratioMul rect.width q ≤ rect.width := ratioMul_le _ _ h0 h1
    unfold splitRects ratioMul at *
    dsimp only
    refine ⟨rfl, rfl, by omega, rfl, rfl, rfl, by omega, rfl⟩

/-- C4 (witness): the theorem applied to the two-pane layout
`Branch V ½ (Leaf 0) (Leaf 1)` over the window `(0,0,100,50)`. -/
theorem calculate_rects_partition_witness :
    (((Layout.mk (.Branch .Vertical (1/2) (.Leaf 0) (.Leaf 1)) 2).calculate_rects
        ⟨0, 0, 100, 50⟩).map Prod.fst).Perm
      (Layout.mk (.Branch .Vertical (1/2) (.Leaf 0) (.Leaf 1)) 2).all_pane_ids
    ∧ (∀ p, inRect p ⟨0, 0, 100, 50⟩
        ↔ ∃ pr ∈ (Layout.mk (.Branch .Vertical (1/2) (.Leaf 0) (.Leaf 1)) 2).calculate_rects
            ⟨0, 0, 100, 50⟩, inRect p pr.2) :=
  have h := calculate_rects_partition
    (Layout.mk (.Branch .Vertical (1/2) (.Leaf 0) (.Leaf 1)) 2) ⟨0, 0, 100, 50⟩
    (by decide) (by exact ⟨by norm_num, by norm_num, trivial, trivial⟩)
  ⟨h.1, h.2.1⟩

theorem grid_dims_set (g : Grid) (c r : Nat) (cell : Cell) :
    (g.set c r cell).cols = g.cols ∧ (g.set c r cell).rows = g.rows := by
  unfold Grid.set
  repeat' split
  all_goals exact ⟨rfl, rfl⟩

theorem grid_dims_resetCell (g : Grid) (c r : Nat) :
    (g.resetCell c r).cols = g.cols ∧ (g.resetCell c r).rows = g.rows := by
  unfold Grid.resetCell
  split <;> exact ⟨rfl, rfl⟩

theorem grid_dims_clear_row (g : Grid) (r : Nat) :
    (g.clear_row r).cols = g.cols ∧ (g.clear_row r).rows = g.rows := by
  unfold Grid.clear_row
  split <;> exact ⟨rfl, rfl⟩

theorem grid_dims_scroll_up (g : Grid) (n : Nat) :
    (g.scroll_up n).cols = g.cols ∧ (g.scroll_up n).rows = g.rows := by
  unfold Grid.scroll_up
  split <;> exact ⟨rfl, rfl⟩

theorem grid_dims_clear (g : Grid) :
    g.clear.cols = g.cols ∧ g.clear.rows = g.rows := ⟨rfl, rfl⟩

theorem foldl_grid_dims {α : Type} {f : Grid → α → Grid}
    (hd : ∀ g x, (f g x).cols = g.cols ∧ (f g x).rows = g.rows) :
    ∀ (l : List α) (g : Grid),
      (l.foldl f g).cols = g.cols ∧ (l.foldl f g).rows = g.rows := by
  intro l
  induction l with
  | nil => intro g; exact ⟨rfl, rfl⟩
  | cons x xs ih =>
    intro g
    rw [List.foldl_cons]
    exact ⟨(ih _).1.trans (hd g x).1, (ih _).2.trans (hd g x).2⟩

theorem eraseInDisplayN_dims (e : Emulator) (n : Nat) :
    (e.eraseInDisplayN n).grid.cols = e.grid.cols
    ∧ (e.eraseInDisplayN n).grid.rows = e.grid.rows
    ∧ (e.eraseInDisplayN n).cursor_col = e.cursor_col
    ∧ (e.eraseInDisplayN n).cursor_row = e.cursor_row
    ∧ (e.eraseInDisplayN n).saved_cursor = e.saved_cursor := by
  have hreset := foldl_grid_dims (f := fun g col => Grid.resetCell g col e.cursor_row)
    (fun g x => grid_dims_resetCell g x e.cursor_row)
  have hclrow := foldl_grid_dims (f := fun g row => Grid.clear_row g row)
    (fun g x => grid_dims_clear_row g x)
  unfold Emulator.eraseInDisplayN
  repeat' split
  · exact ⟨((hclrow _ _).1).trans (hreset _ _).1,
      ((hclrow _ _).2).trans (hreset _ _).2, rfl, rfl, rfl⟩
  · exact ⟨((hreset _ _).1).trans (hclrow _ _).1,
      ((hreset _ _).2).trans (hclrow _ _).2, rfl, rfl, rfl⟩
  · exact ⟨rfl, rfl, rfl, rfl, rfl⟩
  · exact ⟨rfl, rfl, rfl, rfl, rfl⟩

theorem eraseInLineN_dims (e : Emulator) (n : Nat) :
    (e.eraseInLineN n).grid.cols = e.grid.cols
    ∧ (e.eraseInLineN n).grid.rows = e.grid.rows
    ∧ (e.eraseInLineN n).cursor_col = e.cursor_col
    ∧ (e.eraseInLineN n).cursor_row = e.cursor_row
    ∧ (e.eraseInLineN n).saved_cursor = e.saved_cursor := by
  have hreset := foldl_grid_dims (f := fun g col => Grid.resetCell g col e.cursor_row)
    (fun g x => grid_dims_resetCell g x e.cursor_row)
  unfold Emulator.eraseInLineN
  repeat' split
  · exact ⟨(hreset _ _).1, (hreset _ _).2, rfl, rfl, rfl⟩
  · exact ⟨(hreset _ _).1, (hreset _ _).2, rfl, rfl, rfl⟩
  · exact ⟨(grid_dims_clear_row _ _).1, (grid_dims_clear_row _ _).2, rfl, rfl, rfl⟩
  · exact ⟨rfl, rfl, rfl, rfl, rfl⟩

theorem cols_set (g : Grid) (c r : Nat) (cell : Cell) :
    (g.set c r cell).cols = g.cols := (grid_dims_set g c r cell).1

theorem rows_set (g : Grid) (c r : Nat) (cell : Cell) :
    (g.set c r cell).rows = g.rows := (grid_dims_set g c r cell).2

theorem cols_scroll_up (g : Grid) (n : Nat) :
    (g.scroll_up n).cols = g.cols := (grid_dims_scroll_up g n).1

theorem rows_scroll_up (g : Grid) (n : Nat) :
    (g.scroll_up n).rows = g.rows := (grid_dims_scroll_up g n).2

theorem emuInv_write_char (e : Emulator) (c : Char) (h : EmuInv e) :
    EmuInv (e.write_char c) := by
  obtain ⟨hc1, hr1, hcc, hcr, hsv⟩ := h
  unfold Emulator.write_char
  try dsimp only
  by_cases hwrap : e.grid.cols ≤ e.cursor_col
  · rw [if_pos hwrap]
    try dsimp only
    by_cases hbot : e.grid.rows ≤ e.cursor_row + 1
    · rw [if_pos hbot]
      try dsimp only
      refine ⟨?_, ?_, ?_, ?_, ?_⟩ <;>
        simp only [cols_set, rows_set, cols_scroll_up, rows_scroll_up] <;>
        first | omega | exact hsv
    · rw [if_neg hbot]
      try dsimp only
      refine ⟨?_, ?_, ?_, ?_, ?_⟩ <;>
        simp only [cols_set, rows_set] <;>
        first | omega | exact hsv
  · rw [if_neg hwrap]
    try dsimp only
    refine ⟨?_, ?_, ?_, ?_, ?_⟩ <;>
      simp only [cols_set, rows_set] <;>
      first | omega | exact hsv

theorem cols_eraseInDisplayN (e : Emulator) (n : Nat) :
    (e.eraseInDisplayN n).grid.cols = e.grid.cols := (eraseInDisplayN_dims e n).1

theorem rows_eraseInDisplayN (e : Emulator) (n : Nat) :
    (e.eraseInDisplayN n).grid.rows = e.grid.rows := (eraseInDisplayN_dims e n).2.1

theorem ccol_eraseInDisplayN (e : Emulator) (n : Nat) :
    (e.eraseInDisplayN n).cursor_col = e.cursor_col := (eraseInDisplayN_dims e n).2.2.1

theorem crow_eraseInDisplayN (e : Emulator) (n : Nat) :
    (e.eraseInDisplayN n).cursor_row = e.cursor_row := (eraseInDisplayN_dims e n).2.2.2.1

theorem saved_eraseInDisplayN (e : Emulator) (n : Nat) :
    (e.eraseInDisplayN n).saved_cursor = e.saved_cursor :=
  (eraseInDisplayN_dims e n).2.2.2.2

theorem cols_eraseInLineN (e : Emulator) (n : Nat) :
    (e.eraseInLineN n).grid.cols = e.grid.cols := (eraseInLineN_dims e n).1

theorem rows_eraseInLineN (e : Emulator) (n : Nat) :
    (e.eraseInLineN n).grid.rows = e.grid.rows := (eraseInLineN_dims e n).2.1

theorem ccol_eraseInLineN (e : Emulator) (n : Nat) :
    (e.eraseInLineN n).cursor_col = e.cursor_col := (eraseInLineN_dims e n).2.2.1

theorem crow_eraseInLineN (e : Emulator) (n : Nat) :
    (e.eraseInLineN n).cursor_row = e.cursor_row := (eraseInLineN_dims e n).2.2.2.1

theorem saved_eraseInLineN (e : Emulator) (n : Nat) :
    (e.eraseInLineN n).saved_cursor = e.saved_cursor :=
  (eraseInLineN_dims e n).2.2.2.2

set_option maxHeartbeats 2000000 in
theorem emuInv_applyCsi (e : Emulator) (ps : List Nat) (c : Char) (h : EmuInv e) :
    EmuInv (e.applyCsi ps c) := by
  obtain ⟨hc1, hr1, hcc, hcr, hsv⟩ := h
  unfold Emulator.applyCsi Emulator.eraseInDisplay Emulator.eraseInLine
  try dsimp only
  repeat' split
  all_goals refine ⟨?_, ?_, ?_, ?_, ?_⟩
  all_goals try simp only [cols_eraseInDisplayN, rows_eraseInDisplayN,
    ccol_eraseInDisplayN, crow_eraseInDisplayN, saved_eraseInDisplayN,
    cols_eraseInLineN, rows_eraseInLineN, ccol_eraseInLineN, crow_eraseInLineN,
    saved_eraseInLineN]
  all_goals first
    | omega
    | exact hsv
    | trivial
    | (simp_all [savedOK])
    | (simp_all [savedOK]; omega)

theorem emuInv_applyExecute (e : Emulator) (b : Nat) (h : EmuInv e) :
    EmuInv (e.applyExecute b) := by
  obtain ⟨hc1, hr1, hcc, hcr, hsv⟩ := h
  unfold Emulator.applyExecute Emulator.line_feed Emulator.carriage_return
    Emulator.backspace Emulator.tab
  try dsimp only
  repeat' split
  all_goals refine ⟨?_, ?_, ?_, ?_, ?_⟩
  all_goals try simp only [cols_scroll_up, rows_scroll_up]
  all_goals first
    | omega
    | exact hsv
    | trivial

theorem cols_clear (g : Grid) : g.clear.cols = g.cols := rfl

theorem rows_clear (g : Grid) : g.clear.rows = g.rows := rfl

theorem emuInv_applyEsc (e : Emulator) (b : Nat) (h : EmuInv e) :
    EmuInv (e.applyEsc b) := by
  obtain ⟨hc1, hr1, hcc, hcr, hsv⟩ := h
  unfold Emulator.applyEsc
  split
  · refine ⟨?_, ?_, ?_, ?_, ?_⟩ <;>
      simp only [cols_clear, rows_clear] <;>
      first | omega | trivial
  · exact ⟨hc1, hr1, hcc, hcr, hsv⟩

theorem emuInv_applyOp (e : Emulator) (op : Op) (h : EmuInv e) :
    EmuInv (e.applyOp op) := by
  cases op with
  | print c => exact emuInv_write_char e c h
  | execute b => exact emuInv_applyExecute e b h
  | csi ps c => exact emuInv_applyCsi e ps c h
  | esc b => exact emuInv_applyEsc e b h

/-- C3 (amended): the invariant the emulator actually maintains over any
sequence of dispatched VT actions is `0 ≤ col ≤ cols` and `0 ≤ row < rows`
(the column may transiently equal `cols` after a write in the last column;
the wrap is deferred).  When `write_char` runs with `col ≥ cols` it first
wraps to column 0 of the next row — scrolling via `scroll_up(1)` and
clamping the row to `rows - 1` when past the bottom — then writes there
and leaves the cursor at column 1. -/
theorem cursor_invariant (e : Emulator) (ops : List Op) (h : EmuInv e) :
    EmuInv (e.applyOps ops)
    ∧ (∀ (x : Emulator) (ch : Char), x.grid.cols ≤ x.cursor_col →
        (x.write_char ch).cursor_col = 1
        ∧ (x.write_char ch).cursor_row
            = (if x.grid.rows ≤ x.cursor_row + 1 then x.grid.rows - 1
               else x.cursor_row + 1)
        ∧ (x.write_char ch).grid
            = ((if x.grid.rows ≤ x.cursor_row + 1 then x.grid.scroll_up 1
                else x.grid).set 0
               (if x.grid.rows ≤ x.cursor_row + 1 then x.grid.rows - 1
                else x.cursor_row + 1)
               { ch := ch, fg := x.style.fg, bg := x.style.bg, attrs := x.style.attrs })) := by
  constructor
  · induction ops generalizing e with
    | nil => exact h
    | cons op rest ih =>
      show EmuInv ((e.applyOp op).applyOps rest)
      exact ih _ (emuInv_applyOp e op h)
  · intro x ch hwrap
    unfold Emulator.write_char
    try dsimp only
    rw [if_pos hwrap]
    try dsimp only
    by_cases hbot : x.grid.rows ≤ x.cursor_row + 1
    · simp only [if_pos hbot]
      exact ⟨trivial, trivial, trivial⟩
    · simp only [if_neg hbot]
      exact ⟨trivial, trivial, trivial⟩

/-- C3 (amended, witness): the invariant holds after feeding
`"ab"` then a line feed to a fresh 2×2 emulator, and the wrap clause
applies to the resulting pending-wrap state. -/
theorem cursor_invariant_witness :
    EmuInv ((Emulator.new 2 2 5).applyOps
      [.print 'a', .print 'b', .execute 10, .print 'c'])
    ∧ (((Emulator.new 2 2 5).applyOps [.print 'a', .print 'b']).write_char 'z').cursor_col
        = 1 :=
  have h := cursor_invariant (Emulator.new 2 2 5)
    [.print 'a', .print 'b', .execute 10, .print 'c'] (by decide)
  ⟨h.1, (h.2 ((Emulator.new 2 2 5).applyOps [.print 'a', .print 'b']) 'z'
    (by decide)).1⟩

end Terbulator
